import Mathlib

/-
Verification of the amaya configuration tool's document-mutation engine.

The Rust sources modelled here are src/utils.rs, src/configurator.rs,
src/provider.rs and src/providers/{biome,prettier_eslint}.rs.
serde_json::Value is modelled by the mutual inductive family `Json` /
`JsonList` / `JsonObj`; a serde object (BTreeMap<String, Value>) becomes the
association structure `JsonObj`.  serde's maps hold each key at most once;
that invariant is the predicate `Json.wf` and appears as a hypothesis where
a theorem needs it.  serde's BTreeMap keeps keys sorted while this model
keeps first-write order; no theorem below depends on key order, and
in-place mutation of a map slot (`*target_value = ...`) is modelled by
`jSet`, which rewrites the first matching slot in place.

The filesystem seen by the handlers is modelled as an association list from
path to file content; file content is `Option Json`: `some d` is a file
whose text parses to the document `d`, `none` is a file whose text is not
valid JSON (the handlers' ValidationError case).  Directory creation,
process invocation of package managers and I/O transport errors are the
spec's external collaborators and are not modelled.
-/

mutual

inductive Json where
  | null
  | bool (b : Bool)
  | num (n : Int)
  | str (s : String)
  | arr (elems : JsonList)
  | obj (entries : JsonObj)
deriving DecidableEq

inductive JsonList where
  | nil
  | cons (head : Json) (tail : JsonList)
deriving DecidableEq

inductive JsonObj where
  | nil
  | cons (key : String) (val : Json) (tail : JsonObj)
deriving DecidableEq

end

/-- Value::is_object. -/
def Json.isObj : Json → Bool
  | .obj _ => true
  | _ => false

/-- Map::get / Value::get on an object's entry list: the first slot whose key
matches (serde maps hold each key once, so first is only). -/
def jLookup : JsonObj → String → Option Json
  | .nil, _ => none
  | .cons k v rest, key => if k = key then some v else jLookup rest key

/-- Map slot assignment: overwrite the first slot holding `key` in place, or
append a new slot when the key is absent (Map::insert / `map[key] = v`). -/
def jSet : JsonObj → String → Json → JsonObj
  | .nil, key, val => .cons key val .nil
  | .cons k v rest, key, val =>
    if k = key then .cons k val rest else .cons k v (jSet rest key val)

/-- Map::remove: drop the first slot holding `key`. -/
def jErase : JsonObj → String → JsonObj
  | .nil, _ => .nil
  | .cons k v rest, key => if k = key then rest else .cons k v (jErase rest key)

/-- Map::contains_key. -/
def jHasKey (m : JsonObj) (key : String) : Bool :=
  (jLookup m key).isSome

/-- Value::get with a string key: some value for an object holding the key,
none for a missing key and for every non-object. -/
def Json.get : Json → String → Option Json
  | .obj m, key => jLookup m key
  | _, _ => none

/-- Whether a string key is present in a document; non-objects hold no keys. -/
def Json.hasKey (j : Json) (key : String) : Bool :=
  (j.get key).isSome

mutual

/-- merge_json_values (src/utils.rs lines 18-38; the copy in
src/configurator.rs lines 11-34 is identical).  The Rust function mutates
`target` in place while iterating `source`; here the evolving target map is
threaded through `mergeMap`.  For a key held by both maps: recurse when both
values are objects, overwrite when they differ, leave the slot alone when
they are equal — writing the old value back (`jSet` with `tv` itself) is the
same list, so the equality short-circuit is the `else tv` arm of the slot
value below. -/
def merge_json_values (t s : Json) : Json :=
  match t, s with
  | .obj tm, .obj sm => .obj (mergeMap tm sm)
  | _, s => s
termination_by structural s

/-- One pass of merge_json_values' `for (key, source_value) in source_map`
loop: fold each source entry into the target map. -/
def mergeMap (tm : JsonObj) (sm : JsonObj) : JsonObj :=
  match sm with
  | .nil => tm
  | .cons key sv rest =>
    match jLookup tm key with
    | none => mergeMap (jSet tm key sv) rest
    | some tv =>
      mergeMap
        (jSet tm key
          (if tv.isObj && sv.isObj then merge_json_values tv sv
           else if tv ≠ sv then sv
           else tv))
        rest
termination_by structural sm

end

/-- The value merge_json_values leaves in a slot held by both maps (the
`Some(target_value)` arm of the loop). -/
def mergeVal (tv sv : Json) : Json :=
  if tv.isObj && sv.isObj then merge_json_values tv sv
  else if tv ≠ sv then sv
  else tv

/-- Keys of a map are pairwise distinct. -/
def nodupKeys : JsonObj → Bool
  | .nil => true
  | .cons k _ rest => !(jHasKey rest k) && nodupKeys rest

mutual

/-- Well-formedness: every object in the tree holds each key at most once.
Every serde_json::Value satisfies this by construction of serde's maps. -/
def Json.wf : Json → Bool
  | .null => true
  | .bool _ => true
  | .num _ => true
  | .str _ => true
  | .arr elems => wfList elems
  | .obj entries => nodupKeys entries && wfObj entries

def wfList : JsonList → Bool
  | .nil => true
  | .cons head tail => head.wf && wfList tail

def wfObj : JsonObj → Bool
  | .nil => true
  | .cons _ v rest => v.wf && wfObj rest

end

/-- The error enum of src/error.rs (payloads kept as the message strings). -/
inductive ConfigError where
  | alreadyExists (path : String)
  | missingPrerequisite (msg : String)
  | fileWriteError (msg : String)
  | validationError (msg : String)
  | dependencyError (msg : String)
  | conflictError (msg : String)
  | pathError (msg : String)
  | fileReadError (msg : String)
deriving DecidableEq

/-- Result of a handler call: Ok, a typed ConfigError, or a Rust panic
(unwrap/expect failure — distinct from every typed error). -/
inductive Outcome (α : Type) where
  | ok (val : α)
  | err (e : ConfigError)
  | panicked
deriving DecidableEq

/-- The project-relative filesystem: path to parsed file content. -/
abbrev Fs := List (String × Option Json)

def alistLookup {α : Type} : List (String × α) → String → Option α
  | [], _ => none
  | (k, v) :: rest, key => if k = key then some v else alistLookup rest key

def alistSet {α : Type} : List (String × α) → String → α → List (String × α)
  | [], key, val => [(key, val)]
  | (k, v) :: rest, key, val =>
    if k = key then (k, val) :: rest else (k, v) :: alistSet rest key val

def alistErase {α : Type} : List (String × α) → String → List (String × α)
  | [], _ => []
  | (k, v) :: rest, key => if k = key then rest else (k, v) :: alistErase rest key

/-- AmarisVisualStudioCodeHandler::get_default_path (src/utils.rs line 204). -/
def vscode_settings_path : String := ".vscode/settings.json"

/-- AmarisPackageJsonHandler::get_default_path (src/utils.rs line 266). -/
def package_json_path : String := "package.json"

/-- AmarisFileHandler::write_file (src/utils.rs lines 88-102): writes the
content at the path unconditionally — there is no existence check, an
existing file is overwritten. -/
def fileHandler_write_file (fs : Fs) (path : String) (content : Json) : Fs :=
  alistSet fs path (some content)

/-- AmarisFileHandler::remove_file (src/utils.rs lines 104-114): Ok when the
path does not exist, otherwise delete the file. -/
def fileHandler_remove_file (fs : Fs) (path : String) : Fs :=
  alistErase fs path

/-- AmarisConfigurator::write_file (src/configurator.rs lines 258-270): the
configurator's variant refuses to touch an existing file, failing with
AlreadyExists. -/
def configurator_write_file (fs : Fs) (path : String) (content : Json) : Outcome Fs :=
  if (alistLookup fs path).isSome then .err (.alreadyExists path)
  else .ok (alistSet fs path (some content))

/-- AmarisVisualStudioCodeHandler::read (src/utils.rs lines 208-232): empty
object when the file is missing, ValidationError when it does not parse. -/
def vscode_read (fs : Fs) : Outcome Json :=
  match alistLookup fs vscode_settings_path with
  | none => .ok (.obj .nil)
  | some none => .err (.validationError vscode_settings_path)
  | some (some d) => .ok d

/-- AmarisVisualStudioCodeHandler::write (src/utils.rs lines 234-249). -/
def vscode_write (fs : Fs) (settings : Json) : Fs :=
  alistSet fs vscode_settings_path (some settings)

/-- AmarisPackageJsonHandler::read (src/utils.rs lines 270-289). -/
def package_json_read (fs : Fs) : Outcome Json :=
  match alistLookup fs package_json_path with
  | none => .ok (.obj .nil)
  | some none => .err (.validationError package_json_path)
  | some (some d) => .ok d

/-- AmarisPackageJsonHandler::write (src/utils.rs lines 291-302). -/
def package_json_write (fs : Fs) (d : Json) : Fs :=
  alistSet fs package_json_path (some d)

/-- The document-level core of AmarisPackageJsonHandler::update (src/utils.rs
lines 304-313) and AmarisVisualStudioCodeHandler::update (lines 251-260):
clone the freshly read document as baseline, run the mutate closure on the
working copy, merge the baseline with the working copy, write the merge. -/
def update_document (d : Json) (mutate : Json → Json) : Json :=
  merge_json_values d (mutate d)

/-- The closure passed by AmarisPackageJsonHandler::remove_script (src/utils.rs
lines 345-354): delete the named key from the scripts object of the working
copy when it is present; no-op when the document has no scripts object. -/
def remove_script_mutation (name : String) (d : Json) : Json :=
  match d with
  | .obj m =>
    match jLookup m "scripts" with
    | some (.obj sm) => .obj (jSet m "scripts" (.obj (jErase sm name)))
    | _ => d
  | _ => d

/-- Value::as_str().unwrap_or_default(). -/
def jsonAsStrOrDefault (j : Json) : String :=
  match j with
  | .str s => s
  | _ => ""

/-- The closure passed by AmarisPackageJsonHandler::add_script (src/utils.rs
lines 315-343; src/configurator.rs add_package_script is identical).  The
first step mirrors serde's `package_json["scripts"] = json!({})` (Value
index_or_insert: Null becomes an object, non-objects panic); the per-branch
writes `scripts[name] = ...` go through serde_json's Map IndexMut, which
panics when the key is absent — so the `None` (add new script) branch
panics. -/
def add_script_mutation (name content : String) (append : Bool) (d : Json) : Outcome Json :=
  let step1 : Outcome Json :=
    if (d.get "scripts").isSome then .ok d
    else
      match d with
      | .null => .ok (.obj (.cons "scripts" (.obj .nil) .nil))
      | .obj m => .ok (.obj (jSet m "scripts" (.obj .nil)))
      | _ => .panicked
  match step1 with
  | .ok (.obj m) =>
    match jLookup m "scripts" with
    | some (.obj sm) =>
      match jLookup sm name with
      | some existing =>
        if append then
          .ok (.obj (jSet m "scripts"
            (.obj (jSet sm name (.str (jsonAsStrOrDefault existing ++ " && " ++ content))))))
        else
          .ok (.obj (jSet m "scripts" (.obj (jSet sm name (.str content)))))
      | none => .panicked
    | _ => .panicked
  | .ok _ => .panicked
  | .err e => .err e
  | .panicked => .panicked

/-- AmarisPackageJsonHandler::add_script at the document level: the closure
run through update's baseline-merge pattern. -/
def add_script (name content : String) (append : Bool) (d : Json) : Outcome Json :=
  match add_script_mutation name content append d with
  | .ok working => .ok (merge_json_values d working)
  | .err e => .err e
  | .panicked => .panicked

/-- ConfigEntry (src/provider.rs lines 20-24). -/
structure ConfigEntry where
  file_location : String
  file_name : String
  source_from : String
deriving DecidableEq

/-- ScriptEntry (src/provider.rs lines 26-30). -/
structure ScriptEntry where
  name : String
  script : String
deriving DecidableEq

/-- DynamicProvider (src/provider.rs lines 32-40). -/
structure DynamicProvider where
  name : String
  description : String
  package_manager : String
  packages : List String
  configuration : List ConfigEntry
  scripts : List ScriptEntry

/-- One `updated_package_json["scripts"][&script.name] = json!(script.script)`
assignment of AmarisPackageJsonHandler::write_scripts (src/utils.rs lines
366-378), with serde's Value index_or_insert semantics: a Null document or
Null/missing scripts slot becomes an object, any other non-object panics. -/
def script_index_assign (d : Json) (name script : String) : Outcome Json :=
  match (match d with | .null => Json.obj .nil | other => other) with
  | .obj m =>
    match (jLookup m "scripts").getD .null with
    | .null => .ok (.obj (jSet m "scripts" (.obj (.cons name (.str script) .nil))))
    | .obj sm => .ok (.obj (jSet m "scripts" (.obj (jSet sm name (.str script)))))
    | _ => .panicked
  | _ => .panicked

/-- The assignment loop of AmarisPackageJsonHandler::write_scripts on the
cloned document. -/
def write_scripts_doc : Json → List ScriptEntry → Outcome Json
  | d, [] => .ok d
  | d, s :: rest =>
    match script_index_assign d s.name s.script with
    | .ok d2 => write_scripts_doc d2 rest
    | .err e => .err e
    | .panicked => .panicked

/-- AmarisPackageJsonHandler::write_scripts (src/utils.rs lines 366-378):
read, assign every entry on a clone, write the clone back. -/
def write_scripts (scripts : List ScriptEntry) (fs : Fs) : Outcome Fs :=
  match package_json_read fs with
  | .ok d =>
    match write_scripts_doc d scripts with
    | .ok d2 => .ok (package_json_write fs d2)
    | .err e => .err e
    | .panicked => .panicked
  | .err e => .err e
  | .panicked => .panicked

/-- One `updated_package_json["scripts"].as_object_mut().unwrap().remove(name)`
step of AmarisPackageJsonHandler::remove_scripts (src/utils.rs lines
380-395): when the scripts slot is missing (serde inserts Null) or holds a
non-object, as_object_mut() is None and the unwrap panics. -/
def remove_scripts_step (d : Json) (name : String) : Outcome Json :=
  match (match d with | .null => Json.obj .nil | other => other) with
  | .obj m =>
    match (jLookup m "scripts").getD .null with
    | .obj sm => .ok (.obj (jSet m "scripts" (.obj (jErase sm name))))
    | _ => .panicked
  | _ => .panicked

/-- The removal loop of AmarisPackageJsonHandler::remove_scripts on the
cloned document. -/
def remove_scripts_doc : Json → List ScriptEntry → Outcome Json
  | d, [] => .ok d
  | d, s :: rest =>
    match remove_scripts_step d s.name with
    | .ok d2 => remove_scripts_doc d2 rest
    | .err e => .err e
    | .panicked => .panicked

/-- AmarisPackageJsonHandler::remove_scripts (src/utils.rs lines 380-395). -/
def remove_scripts (scripts : List ScriptEntry) (fs : Fs) : Outcome Fs :=
  match package_json_read fs with
  | .ok d =>
    match remove_scripts_doc d scripts with
    | .ok d2 => .ok (package_json_write fs d2)
    | .err e => .err e
    | .panicked => .panicked
  | .err e => .err e
  | .panicked => .panicked

/-- AmarisConfigurationHandler::write_configs (src/utils.rs lines 126-142):
for each entry, load the provider's template (`tmpl providerName source_from`
models the per-provider config directory; none models a missing template,
which load_file turns into FileReadError) and write it to file_location via
AmarisFileHandler::write_file — overwriting whatever is there. -/
def write_configs (tmpl : String → String → Option Json) (name : String) :
    List ConfigEntry → Fs → Outcome Fs
  | [], fs => .ok fs
  | e :: rest, fs =>
    match tmpl name e.source_from with
    | none => .err (.fileReadError e.source_from)
    | some content => write_configs tmpl name rest (fileHandler_write_file fs e.file_location content)

/-- AmarisConfigurationHandler::remove_configs (src/utils.rs lines 144-156):
for each entry the path is taken from file_name; an entry named
settings.json has the whole VS Code settings document overwritten with the
empty object `json!({})`, every other entry's file is deleted. -/
def remove_configs : List ConfigEntry → Fs → Fs
  | [], fs => fs
  | e :: rest, fs =>
    if e.file_name = "settings.json" then
      remove_configs rest (vscode_write fs (.obj .nil))
    else
      remove_configs rest (fileHandler_remove_file fs e.file_name)

/-- DynamicProviderImpl::install (src/provider.rs lines 104-119); the
package-manager invocation is an external process and is not modelled. -/
def provider_install (tmpl : String → String → Option Json) (p : DynamicProvider)
    (fs : Fs) : Outcome Fs :=
  match write_configs tmpl p.name p.configuration fs with
  | .ok fs2 => write_scripts p.scripts fs2
  | .err e => .err e
  | .panicked => .panicked

/-- DynamicProviderImpl::remove (src/provider.rs lines 121-136); package
removal is an external process and is not modelled. -/
def provider_remove (p : DynamicProvider) (fs : Fs) : Outcome Fs :=
  remove_scripts p.scripts (remove_configs p.configuration fs)

/-- Keys of a map, in slot order. -/
def jKeys : JsonObj → List String
  | .nil => []
  | .cons k _ rest => k :: jKeys rest

/-- The keys collected from one dependency table of the manifest by
AmarisConfigurator::get_package_dependencies (src/configurator.rs lines
203-229): the field's keys when it holds an object, nothing otherwise. -/
def objKeysAt (d : Json) (field : String) : List String :=
  match d.get field with
  | some (.obj m) => jKeys m
  | _ => []

/-- AmarisConfigurator::get_package_dependencies (src/configurator.rs lines
203-229): dependencies, then devDependencies, then peerDependencies. -/
def get_package_dependencies (d : Json) : List String :=
  objKeysAt d "dependencies" ++ objKeysAt d "devDependencies" ++ objKeysAt d "peerDependencies"

/-- AmarisConfigurator::check_if_dependency_exists (src/configurator.rs lines
231-240): true when every asked name occurs in the combined list. -/
def check_if_dependency_exists (d : Json) (names : List String) : Bool :=
  names.all (fun n => (get_package_dependencies d).contains n)

/-- BiomeProvider::get_packages (src/providers/biome.rs lines 108-110). -/
def biome_get_packages : List String := ["@biomejs/biome", "ultracite"]

/-- The Biome-conflict test of PrettierEslintProvider::check_prerequisites
(src/providers/prettier_eslint.rs lines 290-294): ConflictError is raised
exactly when this is true. -/
def prettier_eslint_conflict (d : Json) : Bool :=
  check_if_dependency_exists d biome_get_packages

/-- Example documents, filesystems and provider used by the closed witness
and counterexample statements below. -/
def exDocA : Json := .obj (.cons "a" (.num 1) .nil)

def exFragB : Json :=
  .obj (.cons "a" (.num 2) (.cons "b" (.obj (.cons "c" (.bool true) .nil)) .nil))

def exManifest : Json :=
  .obj (.cons "name" (.str "app")
    (.cons "scripts" (.obj (.cons "lint" (.str "eslint .") .nil)) .nil))

def cx_user_settings : Json := .obj (.cons "user.key" (.num 1) .nil)

def cx_fs0 : Fs :=
  [(vscode_settings_path, some cx_user_settings), (package_json_path, some (.obj .nil))]

def cx_biome_entry : ConfigEntry := ⟨"biome.json", "biome.json", "biome.json"⟩

def cx_settings_entry : ConfigEntry :=
  ⟨".vscode/settings.json", "settings.json", "settings.json"⟩

def cx_provider : DynamicProvider :=
  ⟨"biome", "Biome", "bun", ["@biomejs/biome"], [cx_biome_entry, cx_settings_entry], []⟩

def cx_tmpl : String → String → Option Json :=
  fun _ src =>
    if src = "settings.json" then
      some (.obj (.cons "editor.defaultFormatter" (.str "biomejs.biome") .nil))
    else
      some (.obj (.cons "formatter" (.bool true) .nil))

/-- Install then remove of cx_provider, starting from cx_fs0 (the document
state the lifecycle leaves behind). -/
def cx_install_remove : Outcome Fs :=
  match provider_install cx_tmpl cx_provider cx_fs0 with
  | .ok fs1 => provider_remove cx_provider fs1
  | .err e => .err e
  | .panicked => .panicked

/-- Structural induction along the slot spine of a map (the mutual family
blocks the default eliminator from the induction tactic). -/
theorem jsonObjInd {motive : JsonObj → Prop} (nil : motive .nil)
    (cons : ∀ (k : String) (v : Json) (rest : JsonObj), motive rest → motive (.cons k v rest)) :
    ∀ m, motive m
  | .nil => nil
  | .cons k v rest => cons k v rest (jsonObjInd nil cons rest)

/-- Looking a key up after a slot assignment: the assigned key reads the new
value, every other key is untouched. -/
theorem jLookup_jSet (m : JsonObj) (key : String) (v : Json) (k : String) :
    jLookup (jSet m key v) k = if k = key then some v else jLookup m k := by
  induction m using jsonObjInd with
  | nil =>
    by_cases h : k = key
    · subst h; simp [jSet, jLookup]
    · simp [jSet, jLookup, h, Ne.symm h]
  | cons k0 v0 rest ih =>
    by_cases h0 : k0 = key
    · subst h0
      by_cases h1 : k0 = k
      · subst h1; simp [jSet, jLookup]
      · simp [jSet, jLookup, h1, Ne.symm h1]
    · by_cases h1 : k0 = k
      · subst h1
        have h2 : ¬(k0 = key) := h0
        simp [jSet, jLookup, h0, fun hh : k0 = key => h0 hh]
      · simp [jSet, jLookup, h0, h1, ih]

/-- Writing back the value a slot already holds leaves the map unchanged
(this is how the Rust in-place no-op is reflected on lists). -/
theorem jSet_self (m : JsonObj) (key : String) (v : Json) (h : jLookup m key = some v) :
    jSet m key v = m := by
  induction m using jsonObjInd with
  | nil => simp [jLookup] at h
  | cons k0 v0 rest ih =>
    by_cases h0 : k0 = key
    · subst h0
      simp [jLookup] at h
      simp [jSet, h]
    · simp [jLookup, h0] at h
      simp [jSet, h0, ih h]

/-- A value reachable by lookup is structurally smaller than its map. -/
theorem sizeOf_jLookup (m : JsonObj) (key : String) (v : Json) (h : jLookup m key = some v) :
    sizeOf v < sizeOf m := by
  induction m using jsonObjInd with
  | nil => simp [jLookup] at h
  | cons k0 v0 rest ih =>
    by_cases h0 : k0 = key
    · subst h0
      simp [jLookup] at h
      subst h
      simp
      omega
    · simp [jLookup, h0] at h
      have := ih h
      simp
      omega

/-- Every value of a well-formed map is well-formed. -/
theorem wfObj_lookup (m : JsonObj) (key : String) (v : Json) (hm : wfObj m = true)
    (h : jLookup m key = some v) : v.wf = true := by
  induction m using jsonObjInd with
  | nil => simp [jLookup] at h
  | cons k0 v0 rest ih =>
    simp [wfObj, Bool.and_eq_true] at hm
    by_cases h0 : k0 = key
    · subst h0
      simp [jLookup] at h
      exact h ▸ hm.1
    · simp [jLookup, h0] at h
      exact ih hm.2 h

/-- Key presence after a slot assignment. -/
theorem jHasKey_jSet (m : JsonObj) (key : String) (v : Json) (k : String) :
    jHasKey (jSet m key v) k = (if k = key then true else jHasKey m k) := by
  simp only [jHasKey, jLookup_jSet]
  split <;> simp

/-- Slot assignment keeps keys pairwise distinct. -/
theorem nodupKeys_jSet (m : JsonObj) (key : String) (v : Json) (h : nodupKeys m = true) :
    nodupKeys (jSet m key v) = true := by
  induction m using jsonObjInd with
  | nil => simp [jSet, nodupKeys, jHasKey, jLookup]
  | cons k0 v0 rest ih =>
    simp [nodupKeys, Bool.and_eq_true] at h
    by_cases h0 : k0 = key
    · subst h0
      simp [jSet, nodupKeys, Bool.and_eq_true]
      exact ⟨h.1, h.2⟩
    · simp [jSet, h0, nodupKeys, Bool.and_eq_true, jHasKey_jSet]
      exact ⟨h.1, ih h.2⟩

/-- Erasing one key of a duplicate-free map: the erased key is gone, every
other key reads as before. -/
theorem jLookup_jErase (m : JsonObj) (key : String) (k : String) (hnd : nodupKeys m = true) :
    jLookup (jErase m key) k = if k = key then none else jLookup m k := by
  induction m using jsonObjInd with
  | nil => simp [jErase, jLookup]
  | cons k0 v0 rest ih =>
    simp [nodupKeys, Bool.and_eq_true] at hnd
    by_cases h0 : k0 = key
    · subst h0
      by_cases h1 : k0 = k
      · subst h1
        simp [jErase, jLookup]
        simp [jHasKey] at hnd
        exact hnd.1
      · simp [jErase, jLookup, h1, Ne.symm h1]
    · by_cases h1 : k0 = k
      · subst h1
        simp [jErase, jLookup, h0, fun hh : k0 = key => h0 hh]
      · simp [jErase, jLookup, h0, h1, ih hnd.2]

/-- Erasing a key keeps the remaining keys pairwise distinct. -/
theorem nodupKeys_jErase (m : JsonObj) (key : String) (hnd : nodupKeys m = true) :
    nodupKeys (jErase m key) = true := by
  induction m using jsonObjInd with
  | nil => simp [jErase, nodupKeys]
  | cons k0 v0 rest ih =>
    simp [nodupKeys, Bool.and_eq_true] at hnd
    by_cases h0 : k0 = key
    · subst h0
      simp [jErase]
      exact hnd.2
    · simp [jErase, h0, nodupKeys, Bool.and_eq_true]
      refine ⟨?_, ih hnd.2⟩
      have h1 := hnd.1
      simp [jHasKey] at h1 ⊢
      rw [jLookup_jErase rest key k0 hnd.2]
      simp [h0]
      exact h1

/-- Every value of a well-formed map stays well-formed after erasing a key. -/
theorem wfObj_jErase (m : JsonObj) (key : String) (hm : wfObj m = true) :
    wfObj (jErase m key) = true := by
  induction m using jsonObjInd with
  | nil => simp [jErase, wfObj]
  | cons k0 v0 rest ih =>
    simp [wfObj, Bool.and_eq_true] at hm
    by_cases h0 : k0 = key
    · subst h0
      simp [jErase]
      exact hm.2
    · simp [jErase, h0, wfObj, Bool.and_eq_true]
      exact ⟨hm.1, ih hm.2⟩

/-- The merge loop's step on a key absent from the target: insert it. -/
theorem mergeMap_cons_none (tm : JsonObj) (key : String) (sv : Json) (rest : JsonObj)
    (h : jLookup tm key = none) :
    mergeMap tm (.cons key sv rest) = mergeMap (jSet tm key sv) rest := by
  simp [mergeMap, h]

/-- The merge loop's step on a key both maps hold: the slot becomes
`mergeVal` of the two values. -/
theorem mergeMap_cons_some (tm : JsonObj) (key : String) (sv tv : Json) (rest : JsonObj)
    (h : jLookup tm key = some tv) :
    mergeMap tm (.cons key sv rest) = mergeMap (jSet tm key (mergeVal tv sv)) rest := by
  simp [mergeMap, h, mergeVal]

/-- Outside the object-object arm, merge_json_values returns the source
value unchanged (the `(target, source) => *target = source.clone()` arm). -/
theorem merge_default_arm (t s : Json) (h : (t.isObj && s.isObj) = false) :
    merge_json_values t s = s :=
  match t, s with
  | .null, .null => rfl
  | .null, .bool _ => rfl
  | .null, .num _ => rfl
  | .null, .str _ => rfl
  | .null, .arr _ => rfl
  | .null, .obj _ => rfl
  | .bool _, .null => rfl
  | .bool _, .bool _ => rfl
  | .bool _, .num _ => rfl
  | .bool _, .str _ => rfl
  | .bool _, .arr _ => rfl
  | .bool _, .obj _ => rfl
  | .num _, .null => rfl
  | .num _, .bool _ => rfl
  | .num _, .num _ => rfl
  | .num _, .str _ => rfl
  | .num _, .arr _ => rfl
  | .num _, .obj _ => rfl
  | .str _, .null => rfl
  | .str _, .bool _ => rfl
  | .str _, .num _ => rfl
  | .str _, .str _ => rfl
  | .str _, .arr _ => rfl
  | .str _, .obj _ => rfl
  | .arr _, .null => rfl
  | .arr _, .bool _ => rfl
  | .arr _, .num _ => rfl
  | .arr _, .str _ => rfl
  | .arr _, .arr _ => rfl
  | .arr _, .obj _ => rfl
  | .obj _, .null => rfl
  | .obj _, .bool _ => rfl
  | .obj _, .num _ => rfl
  | .obj _, .str _ => rfl
  | .obj _, .arr _ => rfl
  | .obj _, .obj _ => by simp [Json.isObj] at h

/-- The object-object arm of merge_json_values. -/
theorem merge_obj_obj (tm sm : JsonObj) :
    merge_json_values (.obj tm) (.obj sm) = .obj (mergeMap tm sm) := rfl

/-- Merging never disturbs a key the source map does not hold. -/
theorem jLookup_mergeMap_not_has (sm : JsonObj) (tm : JsonObj) (k : String)
    (h : jHasKey sm k = false) :
    jLookup (mergeMap tm sm) k = jLookup tm k := by
  induction sm using jsonObjInd generalizing tm with
  | nil => simp [mergeMap]
  | cons key sv rest ih =>
    by_cases hk : key = k
    · subst hk
      simp [jHasKey, jLookup] at h
    · have h2 : jHasKey rest k = false := by
        simp [jHasKey, jLookup, hk] at h
        simpa [jHasKey] using h
      have hk2 : ¬k = key := fun hh => hk hh.symm
      cases hl : jLookup tm key with
      | none =>
        rw [mergeMap_cons_none tm key sv rest hl, ih (jSet tm key sv) h2, jLookup_jSet]
        simp [hk2]
      | some tv =>
        rw [mergeMap_cons_some tm key sv tv rest hl, ih _ h2, jLookup_jSet]
        simp [hk2]

/-- Lookup through the merge at a key the (duplicate-free) source map holds:
an absent target key reads the source value, a present one reads the merged
slot value. -/
theorem jLookup_mergeMap_has (sm : JsonObj) (tm : JsonObj) (key : String) (sv : Json)
    (hnd : nodupKeys sm = true) (h : jLookup sm key = some sv) :
    jLookup (mergeMap tm sm) key =
      some (match jLookup tm key with
            | some tv => mergeVal tv sv
            | none => sv) := by
  induction sm using jsonObjInd generalizing tm with
  | nil => simp [jLookup] at h
  | cons k0 sv0 rest ih =>
    simp [nodupKeys, Bool.and_eq_true] at hnd
    by_cases h0 : k0 = key
    · subst h0
      simp [jLookup] at h
      subst h
      have hrest : jHasKey rest k0 = false := by
        simpa [jHasKey] using hnd.1
      cases hl : jLookup tm k0 with
      | none =>
        rw [mergeMap_cons_none tm k0 sv0 rest hl,
          jLookup_mergeMap_not_has rest _ k0 hrest, jLookup_jSet]
        simp [hl]
      | some tv =>
        rw [mergeMap_cons_some tm k0 sv0 tv rest hl,
          jLookup_mergeMap_not_has rest _ k0 hrest, jLookup_jSet]
        simp [hl]
    · simp [jLookup, h0] at h
      have h02 : ¬key = k0 := fun hh => h0 hh.symm
      cases hl : jLookup tm k0 with
      | none =>
        rw [mergeMap_cons_none tm k0 sv0 rest hl, ih _ hnd.2 h, jLookup_jSet]
        simp [h02]
      | some tv =>
        rw [mergeMap_cons_some tm k0 sv0 tv rest hl, ih _ hnd.2 h, jLookup_jSet]
        simp [h02]

/-- When every entry of the (duplicate-free) source map already sits in the
target with a value the merge step leaves fixed, the merge pass returns the
target unchanged. -/
theorem mergeMap_noop (sm : JsonObj) (tm : JsonObj) (hnd : nodupKeys sm = true)
    (h : ∀ k sv, jLookup sm k = some sv →
      ∃ tv, jLookup tm k = some tv ∧ mergeVal tv sv = tv) :
    mergeMap tm sm = tm := by
  induction sm using jsonObjInd with
  | nil => simp [mergeMap]
  | cons key sv rest ih =>
    simp [nodupKeys, Bool.and_eq_true] at hnd
    obtain ⟨tv, hl, hfix⟩ := h key sv (by simp [jLookup])
    rw [mergeMap_cons_some tm key sv tv rest hl, hfix, jSet_self tm key tv hl]
    apply ih hnd.2
    intro k sv2 hk
    by_cases hkey : k = key
    · subst hkey
      have hfalse := hnd.1
      simp [jHasKey, hk] at hfalse
    · refine h k sv2 ?_
      have hkey2 : ¬key = k := fun hh => hkey hh.symm
      simp [jLookup, hkey2, hk]

/-- A value whose isObj flag is set is an object. -/
theorem isObj_exists (j : Json) (h : j.isObj = true) : ∃ m, j = Json.obj m := by
  match j with
  | .obj m => exact ⟨m, rfl⟩
  | .null => simp [Json.isObj] at h
  | .bool _ => simp [Json.isObj] at h
  | .num _ => simp [Json.isObj] at h
  | .str _ => simp [Json.isObj] at h
  | .arr _ => simp [Json.isObj] at h

/-- Unpack well-formedness of an object. -/
theorem wf_obj_parts (m : JsonObj) (h : (Json.obj m).wf = true) :
    nodupKeys m = true ∧ wfObj m = true := by
  simpa [Json.wf, Bool.and_eq_true] using h

/-- A document with a readable key is an object whose map holds the key. -/
theorem get_some_obj (d : Json) (key : String) (v : Json) (h : Json.get d key = some v) :
    ∃ m, d = Json.obj m ∧ jLookup m key = some v := by
  match d with
  | .obj m => exact ⟨m, rfl, h⟩
  | .null => simp [Json.get] at h
  | .bool _ => simp [Json.get] at h
  | .num _ => simp [Json.get] at h
  | .str _ => simp [Json.get] at h
  | .arr _ => simp [Json.get] at h

/-- Merging two objects yields an object. -/
theorem merge_obj_isObj (tv sv : Json) (htv : tv.isObj = true) (hsv : sv.isObj = true) :
    (merge_json_values tv sv).isObj = true := by
  obtain ⟨tm, rfl⟩ := isObj_exists tv htv
  obtain ⟨sm, rfl⟩ := isObj_exists sv hsv
  rw [merge_obj_obj]
  rfl

/-- Merging a well-formed document into itself is the identity: the merge
loop's equality short-circuit fires at every slot. -/
theorem merge_self : (j : Json) → j.wf = true → merge_json_values j j = j
  | .null, _ => rfl
  | .bool _, _ => rfl
  | .num _, _ => rfl
  | .str _, _ => rfl
  | .arr _, _ => rfl
  | .obj m, h => by
    have hw := wf_obj_parts m h
    have hmm : mergeMap m m = m := by
      apply mergeMap_noop m m hw.1
      intro k sv hk
      refine ⟨sv, hk, ?_⟩
      unfold mergeVal
      cases hobj : sv.isObj with
      | false => simp [hobj]
      | true =>
        have hsv : sv.wf = true := wfObj_lookup m k sv hw.2 hk
        simp [hobj, merge_self sv hsv]
    rw [merge_obj_obj, hmm]
termination_by j _ => sizeOf j
decreasing_by
  have hsz := sizeOf_jLookup m k sv hk
  simp
  omega

/-- The slot merge of a well-formed value with itself is that value. -/
theorem mergeVal_self (v : Json) (h : v.wf = true) : mergeVal v v = v := by
  unfold mergeVal
  cases hobj : v.isObj with
  | false => simp [hobj]
  | true => simp [hobj, merge_self v h]

/-- Re-merging a source value into an already-merged slot changes nothing,
given idempotence of the nested object merge (supplied as `hrec`). -/
theorem mergeVal_idem (tv sv : Json) (hsv : sv.wf = true)
    (hrec : tv.isObj = true → sv.isObj = true →
      merge_json_values (merge_json_values tv sv) sv = merge_json_values tv sv) :
    mergeVal (mergeVal tv sv) sv = mergeVal tv sv := by
  by_cases hboth : (tv.isObj && sv.isObj) = true
  · have htv : tv.isObj = true := ((Bool.and_eq_true _ _).mp hboth).1
    have hsvo : sv.isObj = true := ((Bool.and_eq_true _ _).mp hboth).2
    have h1 : mergeVal tv sv = merge_json_values tv sv := by
      unfold mergeVal
      simp [hboth]
    rw [h1]
    have hro := merge_obj_isObj tv sv htv hsvo
    have h2 : mergeVal (merge_json_values tv sv) sv
        = merge_json_values (merge_json_values tv sv) sv := by
      unfold mergeVal
      simp [hro, hsvo]
    rw [h2]
    exact hrec htv hsvo
  · by_cases heq : tv = sv
    · subst heq
      have htv : tv.isObj = false := by
        cases hv : tv.isObj
        · rfl
        · simp [hv] at hboth
      have h1 : mergeVal tv tv = tv := by
        unfold mergeVal
        simp [htv]
      rw [h1, h1]
    · have h1 : mergeVal tv sv = sv := by
        unfold mergeVal
        simp [hboth, heq]
      rw [h1]
      exact mergeVal_self sv hsv

/-- Merging an object fragment leaves every key the fragment does not hold
reading exactly as in the target document. -/
theorem merge_get_frame (d f : Json) (key : String) (v : Json)
    (hd : Json.get d key = some v) (hobj : f.isObj = true)
    (hkey : Json.hasKey f key = false) :
    Json.get (merge_json_values d f) key = some v := by
  obtain ⟨sm, rfl⟩ := isObj_exists f hobj
  obtain ⟨tm, rfl, hl⟩ := get_some_obj d key v hd
  rw [merge_obj_obj]
  have hhas : jHasKey sm key = false := by
    simpa [Json.hasKey, Json.get, jHasKey] using hkey
  show jLookup (mergeMap tm sm) key = some v
  rw [jLookup_mergeMap_not_has sm tm key hhas]
  exact hl

/-- Filesystem lookup after a write: the written path reads the new content,
every other path is untouched. -/
theorem alistLookup_alistSet {α : Type} (m : List (String × α)) (key : String) (v : α)
    (k : String) :
    alistLookup (alistSet m key v) k = if k = key then some v else alistLookup m k := by
  induction m with
  | nil =>
    by_cases h : k = key
    · subst h; simp [alistSet, alistLookup]
    · simp [alistSet, alistLookup, h, Ne.symm h]
  | cons p rest ih =>
    obtain ⟨k0, v0⟩ := p
    by_cases h0 : k0 = key
    · subst h0
      by_cases h1 : k0 = k
      · subst h1; simp [alistSet, alistLookup]
      · simp [alistSet, alistLookup, h1, Ne.symm h1]
    · by_cases h1 : k0 = k
      · subst h1
        simp [alistSet, alistLookup, h0]
      · simp [alistSet, alistLookup, h0, h1, ih]

/-- Deleting one path leaves every other path's content unchanged. -/
theorem alistLookup_alistErase_ne {α : Type} (m : List (String × α)) (key k : String)
    (h : ¬k = key) :
    alistLookup (alistErase m key) k = alistLookup m k := by
  induction m with
  | nil => simp [alistErase]
  | cons p rest ih =>
    obtain ⟨k0, v0⟩ := p
    by_cases h0 : k0 = key
    · subst h0
      have h2 : ¬k0 = k := fun hh => h hh.symm
      simp [alistErase, alistLookup, h2]
    · by_cases h1 : k0 = k
      · subst h1
        simp [alistErase, alistLookup, h0]
      · simp [alistErase, alistLookup, h0, h1, ih]

/-- Once the settings file holds the empty object, the rest of a
remove_configs pass whose entries do not name the settings path directly
keeps it holding the empty object (settings-named entries rewrite it with
the empty object again). -/
theorem remove_configs_keeps_settings (entries : List ConfigEntry) (fs : Fs)
    (hother : ∀ e ∈ entries, ¬e.file_name = vscode_settings_path)
    (h : alistLookup fs vscode_settings_path = some (some (.obj .nil))) :
    alistLookup (remove_configs entries fs) vscode_settings_path
      = some (some (.obj .nil)) := by
  induction entries generalizing fs with
  | nil => simpa [remove_configs] using h
  | cons e rest ih =>
    have he := hother e (by simp)
    have hrest : ∀ e2 ∈ rest, ¬e2.file_name = vscode_settings_path :=
      fun e2 h2 => hother e2 (by simp [h2])
    by_cases hs : e.file_name = "settings.json"
    · rw [remove_configs]
      simp only [hs, if_pos rfl]
      apply ih _ hrest
      simp [vscode_write, alistLookup_alistSet]
    · rw [remove_configs]
      simp only [hs, if_neg hs]
      apply ih _ hrest
      rw [fileHandler_remove_file,
        alistLookup_alistErase_ne fs e.file_name vscode_settings_path
          (fun hh => he hh.symm)]
      exact h

/-- With a scripts object present, the remove_scripts loop succeeds, erases
exactly the named entries from the scripts object and leaves every other
manifest key reading as before. -/
theorem remove_scripts_doc_removes (entries : List ScriptEntry) (m sm : JsonObj)
    (hnd : nodupKeys sm = true) (hl : jLookup m "scripts" = some (.obj sm)) :
    ∃ d2 sm2, remove_scripts_doc (.obj m) entries = .ok d2 ∧
      (∀ k, ¬k = "scripts" → Json.get d2 k = jLookup m k) ∧
      Json.get d2 "scripts" = some (.obj sm2) ∧
      (∀ s, jLookup sm2 s =
        if s ∈ entries.map ScriptEntry.name then none else jLookup sm s) := by
  induction entries generalizing m sm with
  | nil =>
    refine ⟨.obj m, sm, rfl, ?_, ?_, ?_⟩
    · intro k hk
      rfl
    · simpa [Json.get] using hl
    · intro s
      simp
  | cons e rest ih =>
    have hstep : remove_scripts_step (.obj m) e.name
        = .ok (.obj (jSet m "scripts" (.obj (jErase sm e.name)))) := by
      unfold remove_scripts_step
      simp [hl]
    have hnd2 : nodupKeys (jErase sm e.name) = true := nodupKeys_jErase sm e.name hnd
    have hl2 : jLookup (jSet m "scripts" (.obj (jErase sm e.name))) "scripts"
        = some (.obj (jErase sm e.name)) := by
      rw [jLookup_jSet]
      simp
    obtain ⟨d2, sm2, heq, hframe, hscripts, hrem⟩ := ih _ _ hnd2 hl2
    refine ⟨d2, sm2, ?_, ?_, hscripts, ?_⟩
    · simp only [remove_scripts_doc, hstep]
      exact heq
    · intro k hk
      rw [hframe k hk, jLookup_jSet]
      simp [hk]
    · intro s
      rw [hrem s, jLookup_jErase sm e.name s hnd]
      by_cases h1 : s ∈ rest.map ScriptEntry.name <;> by_cases h2 : s = e.name <;>
        simp [h1, h2]

/-- Claim C1, counterexample.  Install then remove is not inverse on the
documents: starting from an editor-settings document holding only the user's
key "user.key" (a key the provider does not own), installing the provider
(which overwrites the settings file with its template) and then removing it
leaves the settings document equal to the empty object — "user.key" is gone,
so a key added by someone else before the run is not preserved and the
document does not return to its pre-install state. -/
theorem install_remove_not_inverse_cex :
    vscode_read cx_fs0 = .ok cx_user_settings ∧
    Json.get cx_user_settings "user.key" = some (.num 1) ∧
    cx_install_remove
      = .ok [(vscode_settings_path, some (.obj .nil)),
             (package_json_path, some (.obj .nil))] ∧
    Json.get (.obj .nil) "user.key" = none := by
  refine ⟨rfl, rfl, ?_, rfl⟩
  rfl

/-- Claim C1, amended.  On remove, a configuration entry whose file_name is
the editor-settings file name "settings.json" does not delete the settings
file, but resets the whole editor-settings document to the empty object,
discarding the provider's fragment together with every key anyone else
added; this holds for every starting filesystem, in particular for any
post-install state, so install followed by remove empties the settings
document instead of restoring its pre-install state.  (The hypothesis
excludes entries whose file_name is the literal path ".vscode/settings.json",
which the removal loop would instead treat as an ordinary file deletion.) -/
theorem remove_configs_resets_settings (entries : List ConfigEntry) (fs : Fs)
    (hmem : "settings.json" ∈ entries.map ConfigEntry.file_name)
    (hother : ∀ e ∈ entries, ¬e.file_name = vscode_settings_path) :
    alistLookup (remove_configs entries fs) vscode_settings_path
      = some (some (.obj .nil)) := by
  induction entries generalizing fs with
  | nil => simp at hmem
  | cons e rest ih =>
    have hrest : ∀ e2 ∈ rest, ¬e2.file_name = vscode_settings_path :=
      fun e2 h2 => hother e2 (by simp [h2])
    by_cases hs : e.file_name = "settings.json"
    · simp only [remove_configs]
      rw [if_pos hs]
      apply remove_configs_keeps_settings rest _ hrest
      simp [vscode_write, alistLookup_alistSet]
    · have hmem2 : "settings.json" ∈ rest.map ConfigEntry.file_name := by
        simp only [List.map_cons, List.mem_cons] at hmem
        rcases hmem with h1 | h1
        · exact absurd h1.symm hs
        · exact h1
      simp only [remove_configs]
      rw [if_neg hs]
      exact ih _ hmem2 hrest

/-- Claim C1, witness for the amended theorem: the biome-style configuration
list applied to the concrete starting filesystem. -/
theorem remove_configs_resets_settings_witness :
    alistLookup (remove_configs [cx_biome_entry, cx_settings_entry] cx_fs0)
      vscode_settings_path = some (some (.obj .nil)) :=
  remove_configs_resets_settings [cx_biome_entry, cx_settings_entry] cx_fs0
    (by decide) (by decide)

/-- Claim C2.  Merging a fragment twice gives the same document as merging it
once: merge(merge(D, F), F) = merge(D, F).  F ranges over every value
serde_json can hold (Json.wf is serde's key-uniqueness invariant). -/
theorem merge_idempotent : (d f : Json) → f.wf = true →
    merge_json_values (merge_json_values d f) f = merge_json_values d f
  | d, .null, _ => by
    rw [merge_default_arm d .null (by simp [Json.isObj]),
      merge_default_arm .null .null (by simp [Json.isObj])]
  | d, .bool b, _ => by
    rw [merge_default_arm d (.bool b) (by simp [Json.isObj]),
      merge_default_arm (.bool b) (.bool b) (by simp [Json.isObj])]
  | d, .num n, _ => by
    rw [merge_default_arm d (.num n) (by simp [Json.isObj]),
      merge_default_arm (.num n) (.num n) (by simp [Json.isObj])]
  | d, .str s, _ => by
    rw [merge_default_arm d (.str s) (by simp [Json.isObj]),
      merge_default_arm (.str s) (.str s) (by simp [Json.isObj])]
  | d, .arr a, _ => by
    rw [merge_default_arm d (.arr a) (by simp [Json.isObj]),
      merge_default_arm (.arr a) (.arr a) (by simp [Json.isObj])]
  | d, .obj sm, hf => by
    have hw := wf_obj_parts sm hf
    match d with
    | .null =>
      rw [merge_default_arm .null (.obj sm) (by simp [Json.isObj])]
      exact merge_self (.obj sm) hf
    | .bool b =>
      rw [merge_default_arm (.bool b) (.obj sm) (by simp [Json.isObj])]
      exact merge_self (.obj sm) hf
    | .num n =>
      rw [merge_default_arm (.num n) (.obj sm) (by simp [Json.isObj])]
      exact merge_self (.obj sm) hf
    | .str s2 =>
      rw [merge_default_arm (.str s2) (.obj sm) (by simp [Json.isObj])]
      exact merge_self (.obj sm) hf
    | .arr a =>
      rw [merge_default_arm (.arr a) (.obj sm) (by simp [Json.isObj])]
      exact merge_self (.obj sm) hf
    | .obj tm =>
      rw [merge_obj_obj tm sm, merge_obj_obj (mergeMap tm sm) sm]
      refine congrArg Json.obj ?_
      apply mergeMap_noop sm (mergeMap tm sm) hw.1
      intro k sv hk
      have hchar := jLookup_mergeMap_has sm tm k sv hw.1 hk
      have hsv : sv.wf = true := wfObj_lookup sm k sv hw.2 hk
      cases hl : jLookup tm k with
      | none =>
        rw [hl] at hchar
        refine ⟨sv, ?_, mergeVal_self sv hsv⟩
        simpa using hchar
      | some tv =>
        rw [hl] at hchar
        refine ⟨mergeVal tv sv, ?_, ?_⟩
        · simpa using hchar
        · exact mergeVal_idem tv sv hsv (fun _ _ => merge_idempotent tv sv hsv)
termination_by d f _ => sizeOf f
decreasing_by
  have hsz := sizeOf_jLookup sm k sv hk
  simp
  omega

/-- Claim C2, witness: a concrete document and fragment, the well-formedness
hypothesis discharged by computation. -/
theorem merge_idempotent_witness :
    exFragB.wf = true ∧
    merge_json_values (merge_json_values exDocA exFragB) exFragB
      = merge_json_values exDocA exFragB :=
  ⟨by decide, merge_idempotent exDocA exFragB (by decide)⟩

/-- Claim C3, counterexample.  As stated over every fragment the claim fails:
for the document D = {"a": 1} and the non-object fragment F = 2, the key
"a" exists in D and is not present in F, yet merge(D, F) = 2 no longer maps
"a" to D's value — a non-object fragment replaces the whole document. -/
theorem merge_frame_cex :
    Json.get exDocA "a" = some (.num 1) ∧
    Json.hasKey (Json.num 2) "a" = false ∧
    ¬Json.get (merge_json_values exDocA (Json.num 2)) "a" = some (.num 1) := by
  refine ⟨rfl, rfl, ?_⟩
  decide

/-- Claim C3, amended.  For an object fragment F, merge never disturbs keys
the fragment does not mention: when K exists in D and F is an object not
holding K, merge(D, F) maps K to exactly D's value at K. -/
theorem merge_frame_object_fragment (d f : Json) (key : String) (v : Json)
    (hd : Json.get d key = some v) (hobj : f.isObj = true)
    (hkey : Json.hasKey f key = false) :
    Json.get (merge_json_values d f) key = some v :=
  merge_get_frame d f key v hd hobj hkey

/-- Claim C3, witness for the amended theorem at concrete documents. -/
theorem merge_frame_object_fragment_witness :
    Json.get (merge_json_values exManifest exFragB) "name" = some (.str "app") :=
  merge_frame_object_fragment exManifest exFragB "name" (.str "app") rfl rfl rfl

/-- Claim C4.  The generalized update writes merge(D, f(D)) — update_document
is literally that composition of src/utils.rs update's read, clone, mutate,
merge steps — so every key of the freshly read baseline D that the mutate
function leaves untouched (f's output is an object not holding the key) is
still present in the written result with its baseline value. -/
theorem update_preserves_untouched_keys (d : Json) (mutate : Json → Json) (key : String)
    (v : Json) (hd : Json.get d key = some v) (hobj : (mutate d).isObj = true)
    (hkey : Json.hasKey (mutate d) key = false) :
    Json.get (update_document d mutate) key = some v :=
  merge_get_frame d (mutate d) key v hd hobj hkey

/-- Claim C4, witness: a mutate function that replaces the document with an
unrelated object cannot erase the manifest's name key. -/
theorem update_preserves_untouched_keys_witness :
    Json.get (update_document exManifest (fun _ => Json.obj (.cons "x" (.num 5) .nil)))
      "name" = some (.str "app") :=
  update_preserves_untouched_keys exManifest (fun _ => Json.obj (.cons "x" (.num 5) .nil))
    "name" (.str "app") rfl rfl rfl

/-- Claim C5, evidence of the divergence.  The placement path used by the
dynamic-provider install (AmarisConfigurationHandler::write_configs via
AmarisFileHandler::write_file, src/utils.rs) overwrites an existing
destination file and reports success, while the configurator's own
write_file (src/configurator.rs lines 258-270) — the behaviour the spec
describes — refuses with AlreadyExists and leaves the file untouched. -/
theorem write_file_overwrite_divergence :
    fileHandler_write_file [("biome.json", some exDocA)] "biome.json" (.obj .nil)
      = [("biome.json", some (.obj .nil))] ∧
    configurator_write_file [("biome.json", some exDocA)] "biome.json" (.obj .nil)
      = .err (.alreadyExists "biome.json") :=
  ⟨rfl, rfl⟩

/-- Claim C6, evidence of the divergence.  add_script behaves as the claim
says on an existing script — append concatenates with " && ", overwrite
replaces — but its None branch (add a new script) assigns through
serde_json's Map IndexMut, which panics on an absent key, so adding a script
that does not yet exist panics instead of setting it (both for a manifest
with no scripts table and for one with an empty scripts table). -/
theorem add_script_policy_divergence :
    add_script "lint" "new-lint" true
        (.obj (.cons "scripts" (.obj (.cons "lint" (.str "old-lint") .nil)) .nil))
      = .ok (.obj (.cons "scripts"
          (.obj (.cons "lint" (.str "old-lint && new-lint") .nil)) .nil)) ∧
    add_script "lint" "new-lint" false
        (.obj (.cons "scripts" (.obj (.cons "lint" (.str "old-lint") .nil)) .nil))
      = .ok (.obj (.cons "scripts" (.obj (.cons "lint" (.str "new-lint") .nil)) .nil)) ∧
    add_script "lint" "new-lint" true (.obj .nil) = .panicked ∧
    add_script "lint" "new-lint" false (.obj (.cons "scripts" (.obj .nil) .nil))
      = .panicked := by
  refine ⟨?_, ?_, rfl, rfl⟩ <;> rfl

/-- Claim C7.  Reading the package manifest or the editor settings from a
filesystem where the file does not exist yields Ok with the empty object —
neither handler returns an error for a missing file. -/
theorem read_missing_defaults_empty (fs fs2 : Fs)
    (h1 : alistLookup fs package_json_path = none)
    (h2 : alistLookup fs2 vscode_settings_path = none) :
    package_json_read fs = .ok (.obj .nil) ∧ vscode_read fs2 = .ok (.obj .nil) := by
  unfold package_json_read vscode_read
  rw [h1, h2]
  exact ⟨rfl, rfl⟩

/-- Claim C7, witness: the empty filesystem has neither file. -/
theorem read_missing_defaults_empty_witness :
    package_json_read [] = .ok (.obj .nil) ∧ vscode_read [] = .ok (.obj .nil) :=
  read_missing_defaults_empty [] [] rfl rfl

/-- Claim C8.  remove_script is a no-op on the stored manifest: its closure
deletes the named key from the scripts object of the working copy, but
update then merges the baseline with the working copy before writing, and
the merge re-reads the deleted slot from the baseline — so the written
document equals the original for every well-formed manifest, and a script
present before the call is still present after it. -/
theorem remove_script_update_noop (d : Json) (name : String) (h : d.wf = true) :
    update_document d (remove_script_mutation name) = d := by
  revert h
  match d with
  | .null => intro h; exact merge_self .null h
  | .bool b => intro h; exact merge_self (.bool b) h
  | .num n => intro h; exact merge_self (.num n) h
  | .str s => intro h; exact merge_self (.str s) h
  | .arr a => intro h; exact merge_self (.arr a) h
  | .obj m =>
    intro h
    unfold update_document remove_script_mutation
    cases hl : jLookup m "scripts" with
    | none =>
      simp only [hl]
      exact merge_self (.obj m) h
    | some sv =>
      revert hl
      match sv with
      | .null => intro hl; simp only [hl]; exact merge_self (.obj m) h
      | .bool b => intro hl; simp only [hl]; exact merge_self (.obj m) h
      | .num n => intro hl; simp only [hl]; exact merge_self (.obj m) h
      | .str s => intro hl; simp only [hl]; exact merge_self (.obj m) h
      | .arr a => intro hl; simp only [hl]; exact merge_self (.obj m) h
      | .obj sm =>
        intro hl
        simp only [hl]
        rw [merge_obj_obj]
        refine congrArg Json.obj ?_
        have hw := wf_obj_parts m h
        have hsmwf : (Json.obj sm).wf = true := wfObj_lookup m "scripts" (.obj sm) hw.2 hl
        have hsm := wf_obj_parts sm hsmwf
        apply mergeMap_noop _ _ (nodupKeys_jSet m "scripts" _ hw.1)
        intro k sv2 hk2
        rw [jLookup_jSet] at hk2
        by_cases hks : k = "scripts"
        · rw [if_pos hks] at hk2
          have hsv2 : sv2 = .obj (jErase sm name) := by
            simpa using hk2.symm
          subst hsv2
          refine ⟨.obj sm, hks ▸ hl, ?_⟩
          have hmv : mergeVal (.obj sm) (.obj (jErase sm name))
              = merge_json_values (.obj sm) (.obj (jErase sm name)) := by
            unfold mergeVal
            simp [Json.isObj]
          rw [hmv, merge_obj_obj]
          refine congrArg Json.obj ?_
          apply mergeMap_noop _ _ (nodupKeys_jErase sm name hsm.1)
          intro k2 sv3 hk3
          rw [jLookup_jErase sm name k2 hsm.1] at hk3
          by_cases hkn : k2 = name
          · rw [if_pos hkn] at hk3
            exact absurd hk3 (by simp)
          · rw [if_neg hkn] at hk3
            exact ⟨sv3, hk3, mergeVal_self sv3 (wfObj_lookup sm k2 sv3 hsm.2 hk3)⟩
        · rw [if_neg hks] at hk2
          exact ⟨sv2, hk2, mergeVal_self sv2 (wfObj_lookup m k sv2 hw.2 hk2)⟩

/-- Claim C8, witness: removing the lint script through update leaves the
concrete manifest unchanged, its lint script included. -/
theorem remove_script_update_noop_witness :
    exManifest.wf = true ∧
    update_document exManifest (remove_script_mutation "lint") = exManifest :=
  ⟨by decide, remove_script_update_noop exManifest "lint" (by decide)⟩

/-- Claim C9, counterexample.  As stated the claim asserts a panic for every
manifest without a scripts object, but removing an empty list of scripts
from the empty manifest succeeds: the loop body that performs the panicking
unwrap never runs. -/
theorem remove_scripts_no_panic_on_empty_cex :
    remove_scripts_doc (.obj .nil) [] = .ok (.obj .nil) ∧
    (Outcome.ok (Json.obj .nil) ≠ (Outcome.panicked : Outcome Json)) := by
  exact ⟨rfl, by decide⟩

/-- Claim C9, amended.  With a scripts object present (serde maps are
duplicate-free), remove_scripts removes exactly the named script entries and
leaves every other manifest key unchanged; for a manifest without a scripts
object it panics via the unwrap of None whenever at least one script entry
is to be removed (with an empty entry list it is a no-op instead). -/
theorem remove_scripts_spec :
    (∀ (m sm : JsonObj) (entries : List ScriptEntry),
      nodupKeys sm = true →
      jLookup m "scripts" = some (.obj sm) →
      ∃ d2 sm2, remove_scripts_doc (.obj m) entries = .ok d2 ∧
        (∀ k, ¬k = "scripts" → Json.get d2 k = jLookup m k) ∧
        Json.get d2 "scripts" = some (.obj sm2) ∧
        (∀ s, jLookup sm2 s =
          if s ∈ entries.map ScriptEntry.name then none else jLookup sm s)) ∧
    (∀ (entries : List ScriptEntry), entries ≠ [] →
      remove_scripts_doc (.obj .nil) entries = .panicked) := by
  constructor
  · intro m sm entries hnd hl
    exact remove_scripts_doc_removes entries m sm hnd hl
  · intro entries hne
    cases entries with
    | nil => exact absurd rfl hne
    | cons e rest => rfl

/-- Claim C10.  check_if_dependency_exists is true exactly when every asked
name occurs among the combined keys of the manifest's dependencies,
devDependencies and peerDependencies objects; consequently the
prettier_eslint prerequisite conflict fires exactly when both of Biome's
packages are declared, not when just one of them is. -/
theorem check_dependency_exists_iff :
    (∀ (d : Json) (names : List String),
      check_if_dependency_exists d names = true ↔
        ∀ n ∈ names,
          n ∈ objKeysAt d "dependencies" ∨ n ∈ objKeysAt d "devDependencies" ∨
            n ∈ objKeysAt d "peerDependencies") ∧
    (∀ d : Json,
      prettier_eslint_conflict d = true ↔
        ("@biomejs/biome" ∈ get_package_dependencies d ∧
          "ultracite" ∈ get_package_dependencies d)) := by
  constructor
  · intro d names
    simp [check_if_dependency_exists, List.all_eq_true, get_package_dependencies,
      List.mem_append]
  · intro d
    simp [prettier_eslint_conflict, check_if_dependency_exists, biome_get_packages,
      List.all_eq_true]
